import Mathlib

set_option maxRecDepth 8000

/-!
Shallow embedding of `src/script.py` (PDF → speech → voice-cloned speech tool).

Modelling conventions:
* Python strings are `List Char`; Python `len`, slicing `s[:k]` / `s[k:]`,
  `str.rfind "."`, `str.strip()` become `List.length`, `List.take` / `List.drop`,
  `rfindDot`, `pyStrip` (whitespace modelled over the ASCII whitespace set).
* `pydub.AudioSegment` waveforms are `List Int`, one element per millisecond of
  audio: `len(audio)` is `List.length` (pydub's `len` is in ms), slicing
  `audio[i:j]` is `take`/`drop`, `+` is `++`, `AudioSegment.empty()` is `[]`.
* External collaborators (the TTS model, the voice-conversion model, PyPDF2's
  per-page extraction, the streamlit UI and the filesystem) are oracles passed
  in as function parameters; a call that raises is an `Except.error`.
* Python `while` loops that shrink the string they iterate on are embedded as
  structural recursion on a fuel argument, with fuel = the string length
  (sufficient, since every iteration removes at least one character); fuel
  sufficiency / fuel irrelevance is proved below (`split_textFuel_congr`,
  claim C8).
-/

/-- Python `str.strip()` whitespace test, for the ASCII whitespace characters
`' '`, `\t`, `\n`, `\r`, `\x0b`, `\x0c`. -/
def pyIsSpace (c : Char) : Bool :=
  c == ' ' || c == '\t' || c == '\n' || c == '\r' || c == Char.ofNat 11 || c == Char.ofNat 12

/-- Python `s.strip()`: remove leading and trailing whitespace. -/
def pyStrip (s : List Char) : List Char :=
  ((s.dropWhile pyIsSpace).reverse.dropWhile pyIsSpace).reverse

/-- Python `s.rfind(".")`: the index of the rightmost `'.'` in `s`
(`none` plays the role of Python's `-1`). -/
def rfindDot : List Char → Option Nat
  | [] => none
  | c :: rest =>
    match rfindDot rest with
    | some n => some (n + 1)
    | none => if c = '.' then some 0 else none

/-- Lines 33-35 of `script.py`: `split_index = text[:max_chars].rfind(".")`,
replaced by `max_chars` when it is `-1`. -/
def splitIndex (text : List Char) (maxChars : Nat) : Nat :=
  match rfindDot (text.take maxChars) with
  | some n => n
  | none => maxChars

/-- The `while len(text) > max_chars` loop of `split_text` (lines 31-42 of
`script.py`), embedded with a fuel argument; each iteration takes
`chunk = text[:split_index + 1].strip()`, keeps it when its length exceeds 20,
and continues on `text[split_index + 1:]`.  After the loop, the stripped
remainder is kept when its length exceeds 20. -/
def split_textFuel (maxChars : Nat) : Nat → List Char → List (List Char)
  | 0, text => if 20 < (pyStrip text).length then [pyStrip text] else []
  | fuel + 1, text =>
    if maxChars < text.length then
      (if 20 < (pyStrip (text.take (splitIndex text maxChars + 1))).length then
        [pyStrip (text.take (splitIndex text maxChars + 1))] else [])
        ++ split_textFuel maxChars fuel (text.drop (splitIndex text maxChars + 1))
    else
      if 20 < (pyStrip text).length then [pyStrip text] else []

/-- `split_text(text, max_chars)` of `script.py` (default `max_chars=1500` is
written explicitly at call sites).  Fuel `text.length` is sufficient because
every loop iteration removes at least `split_index + 1 ≥ 1` characters. -/
def split_text (text : List Char) (maxChars : Nat) : List (List Char) :=
  split_textFuel maxChars text.length text

/-- The raw pieces cut by `split_text`'s loop, before `strip()` and before the
`> 20` length filter: piece `text[:split_index + 1]` each iteration, and the
final remainder (possibly empty) when the loop exits. -/
def splitPiecesFuel (maxChars : Nat) : Nat → List Char → List (List Char)
  | 0, text => [text]
  | fuel + 1, text =>
    if maxChars < text.length then
      text.take (splitIndex text maxChars + 1)
        :: splitPiecesFuel maxChars fuel (text.drop (splitIndex text maxChars + 1))
    else [text]

/-- The raw pieces of `split_text text maxChars`, in order. -/
def splitPieces (text : List Char) (maxChars : Nat) : List (List Char) :=
  splitPiecesFuel maxChars text.length text

/-- The watermark phrase of line 24 of `script.py`: `r"Scan to Download"`. -/
def watermark : List Char :=
  ['S', 'c', 'a', 'n', ' ', 't', 'o', ' ', 'D', 'o', 'w', 'n', 'l', 'o', 'a', 'd']

/-- ASCII lower-casing, modelling `re.IGNORECASE` matching of the ASCII-only
watermark pattern. -/
def lowerChar (c : Char) : Char :=
  if 65 ≤ c.toNat && c.toNat ≤ 90 then Char.ofNat (c.toNat + 32) else c

/-- Case-insensitive match of pattern `p` at the front of `s`. -/
def ciMatchAt : List Char → List Char → Bool
  | [], _ => true
  | _ :: _, [] => false
  | p :: ps, c :: cs => (lowerChar p == lowerChar c) && ciMatchAt ps cs

/-- `s` has a case-insensitive occurrence of pattern `p` at some position. -/
def ciContains (pat : List Char) : List Char → Bool
  | [] => ciMatchAt pat []
  | c :: rest => ciMatchAt pat (c :: rest) || ciContains pat rest

/-- Line 24 of `script.py`:
`re.sub(r"Scan to Download", "", text, flags=re.IGNORECASE)`: a single
left-to-right scan deleting non-overlapping case-insensitive occurrences of
the watermark; after a deletion the scan resumes *after* the deleted match
(re.sub does not rescan the spliced text).  Fuel = input length suffices
as each step consumes at least one character. -/
def stripWatermarkGo : Nat → List Char → List Char
  | _, [] => []
  | 0, c :: rest => c :: rest
  | fuel + 1, c :: rest =>
    if ciMatchAt watermark (c :: rest) then
      stripWatermarkGo fuel ((c :: rest).drop watermark.length)
    else
      c :: stripWatermarkGo fuel rest

/-- The watermark-removal pass at its sufficient fuel. -/
def stripWatermark (s : List Char) : List Char := stripWatermarkGo s.length s

/-- Line 25 of `script.py`: `re.sub(r"\s+", " ", text)`: every maximal run of
whitespace becomes a single space.  The boolean records whether the previous
character was whitespace (i.e. whether we are inside a run). -/
def collapseWsAux : Bool → List Char → List Char
  | _, [] => []
  | prevWs, c :: rest =>
    if pyIsSpace c then
      (if prevWs then [] else [' ']) ++ collapseWsAux true rest
    else
      c :: collapseWsAux false rest

/-- Whitespace collapsing, starting outside a whitespace run. -/
def collapseWs (s : List Char) : List Char := collapseWsAux false s

/-- Lines 24-26 of `script.py`: the cleaning pipeline applied to the
concatenated page text (watermark removal, whitespace collapse, strip). -/
def cleanText (text : List Char) : List Char :=
  pyStrip (collapseWs (stripWatermark text))

/-- `extract_text_from_pdf` of `script.py`, with PyPDF2 abstracted away: the
argument is the list of per-page `page.extract_text()` results (an unreadable
page contributing `""`).  Truthy pages (`if page_text:`  — non-empty) are
concatenated each followed by `"\n"`, then cleaned. -/
def extract_text_from_pdf (pages : List (List Char)) : List Char :=
  cleanText (((pages.filter (fun p => !p.isEmpty)).map (fun p => p ++ ['\n'])).flatten)

/-- The per-item try/except loops of `generate_book_tts` (lines 58-65) and
`convert_to_user_voice` (lines 106-120): items are processed in order with a
running index `i`; a successful call contributes its waveform (in order), a
failing call contributes a warning `(index, error message)` and is skipped. -/
def processItems {α : Type} (call : Nat → α → Except String (List Int)) :
    Nat → List α → List (List Int) × List (Nat × String)
  | _, [] => ([], [])
  | i, c :: cs =>
    match call i c, processItems call (i + 1) cs with
    | Except.ok w, r => (w :: r.1, r.2)
    | Except.error e, r => (r.1, (i, e) :: r.2)

/-- What `generate_book_tts` produces: the waveform exported to `output_file`
(line 73), the in-memory encoded copy returned (lines 75-79), and the
warnings issued for skipped chunks (line 65). -/
structure BookTTS where
  exported : List Int
  returned : List Int
  warnings : List (Nat × String)

/-- `generate_book_tts(text, output_file)` of `script.py`, with the TTS model
abstracted: `speakers` is `tts.speakers`, and `synth speaker i chunk` is the
outcome of `tts.tts_to_file(text=chunk, speaker=speaker, file_path=f"chunk_{i}.wav")`
followed by reading the file back (an exception is `Except.error`).
Line 48 `speaker = tts.speakers[0]` raises `IndexError` on an empty list,
before any chunk is processed.  `final_audio` starts from
`AudioSegment.empty()` and is the concatenation, in order, of the successful
chunks' waveforms; it is both exported to `output_file` and returned encoded. -/
def generate_book_tts (speakers : List String)
    (synth : String → Nat → List Char → Except String (List Int))
    (text : List Char) : Except String BookTTS :=
  match speakers.head? with
  | none => Except.error "IndexError: list index out of range"
  | some speaker =>
    match processItems (synth speaker) 0 (split_text text 1500) with
    | r => Except.ok ⟨r.1.flatten, r.1.flatten, r.2⟩

/-- The primary voice-conversion model name (line 93 of `script.py`). -/
def freevc24Name : String := "voice_conversion_models/multilingual/vctk/freevc24"

/-- The fallback voice-conversion model name (line 97 of `script.py`). -/
def freevcName : String := "voice_conversion_models/multilingual/vctk/freevc"

/-- Lines 92-98 of `script.py`: try loading `freevc24`; on any exception fall
back to loading `freevc`, whose outcome (success or exception) is final. -/
def loadVC (load : String → Except String String) : Except String String :=
  match load freevc24Name with
  | Except.ok m => Except.ok m
  | Except.error _ => load freevcName

/-- Line 102 of `script.py`:
`chunks = [audio[i:i + chunk_ms] for i in range(0, len(audio), chunk_ms)]`,
embedded as repeated take/drop with fuel (fuel = `audio.length` suffices for
`0 < chunkMs`). -/
def windowsGo (chunkMs : Nat) : Nat → List Int → List (List Int)
  | _, [] => []
  | 0, _ :: _ => []
  | fuel + 1, a :: rest =>
    (a :: rest).take chunkMs :: windowsGo chunkMs fuel ((a :: rest).drop chunkMs)

/-- The fixed-duration windows of `convert_to_user_voice`. -/
def windows (chunkMs : Nat) (audio : List Int) : List (List Int) :=
  windowsGo chunkMs audio.length audio

/-- What `convert_to_user_voice` produces: the waveform exported to
`output_file` (line 129) and the warnings for skipped windows (line 120). -/
structure VCResult where
  output : List Int
  warnings : List (Nat × String)

/-- `convert_to_user_voice(reference_voice_file, input_speech, output_file, chunk_ms)`
of `script.py`, with the models and filesystem abstracted: `load name` is
`TTS(model_name=name, gpu=False)` (exception = `Except.error`), and
`conv model i window` is `vc_tts.voice_conversion_to_file(...)` on the window
exported to `temp_in_{i}.wav`, conditioned on the fixed reference sample,
followed by reading `temp_out_{i}.wav` back.  The default `chunk_ms=15000` is
written explicitly at call sites.  A model-loading failure of both variants
propagates; converted windows are concatenated in original order. -/
def convert_to_user_voice (load : String → Except String String)
    (conv : String → Nat → List Int → Except String (List Int))
    (audio : List Int) (chunkMs : Nat) : Except String VCResult :=
  match loadVC load with
  | Except.error e => Except.error e
  | Except.ok model =>
    match processItems (conv model) 0 (windows chunkMs audio) with
    | r => Except.ok ⟨r.1.flatten, r.2⟩

instance exceptDecEq {ε α : Type} [DecidableEq ε] [DecidableEq α] : DecidableEq (Except ε α) :=
  fun a b =>
    match a, b with
    | Except.ok x, Except.ok y =>
      match decEq x y with
      | isTrue h => isTrue (by rw [h])
      | isFalse h => isFalse (fun hc => h (Except.ok.inj hc))
    | Except.ok _, Except.error _ => isFalse (fun hc => Except.noConfusion hc)
    | Except.error _, Except.ok _ => isFalse (fun hc => Except.noConfusion hc)
    | Except.error x, Except.error y =>
      match decEq x y with
      | isTrue h => isTrue (by rw [h])
      | isFalse h => isFalse (fun hc => h (Except.error.inj hc))

/-- Fixture for witnesses: a short book text forming exactly one chunk under
`max_chars = 1500`. -/
def sampleBookText : List Char := "The only chunk of this sample book text.".toList

/-- Fixture for witnesses: a synthesis oracle failing exactly on chunk 0. -/
def sampleSynth : String → Nat → List Char → Except String (List Int) :=
  fun _ k _ => if k = 0 then Except.error "boom" else Except.ok [7]

/-- Fixture for witnesses: a synthesis oracle that always fails. -/
def failSynth : String → Nat → List Char → Except String (List Int) :=
  fun _ _ _ => Except.error "synthesis failed"

/-- Fixture for witnesses: a model loader that always succeeds. -/
def okLoad : String → Except String String := fun _ => Except.ok "model"

/-- Fixture for witnesses: a model loader that always fails. -/
def badLoad : String → Except String String := fun _ => Except.error "no model"

/-- Fixture for witnesses: a voice-conversion oracle that echoes its window. -/
def idConv : String → Nat → List Int → Except String (List Int) :=
  fun _ _ w => Except.ok w

/-- Fixture for witnesses: a voice-conversion oracle that always fails. -/
def badConv : String → Nat → List Int → Except String (List Int) :=
  fun _ _ _ => Except.error "conversion failed"

theorem dropWhile_length_le (p : Char → Bool) : ∀ l : List Char, (l.dropWhile p).length ≤ l.length
  | [] => Nat.le_refl 0
  | c :: l => by
    rw [List.dropWhile_cons]
    split
    · exact Nat.le_succ_of_le (dropWhile_length_le p l)
    · exact Nat.le_refl _

theorem pyStrip_length_le (s : List Char) : (pyStrip s).length ≤ s.length := by
  unfold pyStrip
  rw [List.length_reverse]
  calc ((s.dropWhile pyIsSpace).reverse.dropWhile pyIsSpace).length
      ≤ (s.dropWhile pyIsSpace).reverse.length := dropWhile_length_le _ _
    _ = (s.dropWhile pyIsSpace).length := List.length_reverse _
    _ ≤ s.length := dropWhile_length_le _ _

theorem rfindDot_lt_length {s : List Char} {n : Nat} (h : rfindDot s = some n) :
    n < s.length := by
  induction s generalizing n with
  | nil => simp [rfindDot] at h
  | cons c rest ih =>
    rw [rfindDot] at h
    cases hr : rfindDot rest with
    | some m =>
      rw [hr] at h
      simp only [Option.some.injEq] at h
      subst h
      exact Nat.succ_lt_succ (ih hr)
    | none =>
      rw [hr] at h
      by_cases hc : c = '.'
      · rw [if_pos hc] at h
        simp only [Option.some.injEq] at h
        subst h
        simp
      · rw [if_neg hc] at h
        exact absurd h (by simp)

theorem splitIndex_le (text : List Char) (m : Nat) : splitIndex text m ≤ m := by
  unfold splitIndex
  cases hr : rfindDot (text.take m) with
  | none => exact Nat.le_refl m
  | some n =>
    have h := rfindDot_lt_length hr
    rw [List.length_take] at h
    exact Nat.le_of_lt (Nat.lt_of_lt_of_le h (min_le_left _ _))

theorem split_textFuel_congr (m : Nat) :
    ∀ f₁ f₂ text, text.length ≤ f₁ → text.length ≤ f₂ →
      split_textFuel m f₁ text = split_textFuel m f₂ text := by
  intro f₁
  induction f₁ with
  | zero =>
    intro f₂ text h₁ _
    have htext : text = [] := List.length_eq_zero.mp (Nat.le_zero.mp h₁)
    subst htext
    cases f₂ with
    | zero => rfl
    | succ f => simp [split_textFuel]
  | succ f ih =>
    intro f₂ text h₁ h₂
    cases f₂ with
    | zero =>
      have htext : text = [] := List.length_eq_zero.mp (Nat.le_zero.mp h₂)
      subst htext
      simp [split_textFuel]
    | succ g =>
      simp only [split_textFuel]
      by_cases hlen : m < text.length
      · rw [if_pos hlen, if_pos hlen,
          ih g (text.drop (splitIndex text m + 1))
            (by rw [List.length_drop]; omega) (by rw [List.length_drop]; omega)]
      · rw [if_neg hlen, if_neg hlen]

theorem splitPiecesFuel_congr (m : Nat) :
    ∀ f₁ f₂ text, text.length ≤ f₁ → text.length ≤ f₂ →
      splitPiecesFuel m f₁ text = splitPiecesFuel m f₂ text := by
  intro f₁
  induction f₁ with
  | zero =>
    intro f₂ text h₁ _
    have htext : text = [] := List.length_eq_zero.mp (Nat.le_zero.mp h₁)
    subst htext
    cases f₂ with
    | zero => rfl
    | succ f => simp [splitPiecesFuel]
  | succ f ih =>
    intro f₂ text h₁ h₂
    cases f₂ with
    | zero =>
      have htext : text = [] := List.length_eq_zero.mp (Nat.le_zero.mp h₂)
      subst htext
      simp [splitPiecesFuel]
    | succ g =>
      simp only [splitPiecesFuel]
      by_cases hlen : m < text.length
      · rw [if_pos hlen, if_pos hlen,
          ih g (text.drop (splitIndex text m + 1))
            (by rw [List.length_drop]; omega) (by rw [List.length_drop]; omega)]
      · rw [if_neg hlen, if_neg hlen]

theorem splitPiecesFuel_flatten (m : Nat) :
    ∀ fuel text, text.length ≤ fuel → (splitPiecesFuel m fuel text).flatten = text := by
  intro fuel
  induction fuel with
  | zero =>
    intro text _
    simp [splitPiecesFuel]
  | succ f ih =>
    intro text h
    simp only [splitPiecesFuel]
    by_cases hlen : m < text.length
    · rw [if_pos hlen, List.flatten_cons,
        ih _ (by rw [List.length_drop]; omega)]
      exact List.take_append_drop _ _
    · rw [if_neg hlen]
      simp

theorem split_textFuel_eq_filter (m : Nat) :
    ∀ fuel text, text.length ≤ fuel →
      split_textFuel m fuel text
        = ((splitPiecesFuel m fuel text).map pyStrip).filter (fun c => decide (20 < c.length)) := by
  intro fuel
  induction fuel with
  | zero =>
    intro text _
    by_cases hc : 20 < (pyStrip text).length <;>
      simp [split_textFuel, splitPiecesFuel, List.filter_cons, hc]
  | succ f ih =>
    intro text h
    simp only [split_textFuel, splitPiecesFuel]
    by_cases hlen : m < text.length
    · rw [if_pos hlen, if_pos hlen, List.map_cons, List.filter_cons,
        ih _ (by rw [List.length_drop]; omega)]
      by_cases hc : 20 < (pyStrip (text.take (splitIndex text m + 1))).length
      · simp [hc]
      · simp [hc]
    · rw [if_neg hlen, if_neg hlen]
      by_cases hc : 20 < (pyStrip text).length <;> simp [List.filter_cons, hc]

theorem length_le_of_mem_split_textFuel (m : Nat) :
    ∀ fuel text c, text.length ≤ fuel → c ∈ split_textFuel m fuel text →
      c.length ≤ m + 1 := by
  intro fuel
  induction fuel with
  | zero =>
    intro text c h hc
    have htext : text = [] := List.length_eq_zero.mp (Nat.le_zero.mp h)
    subst htext
    simp [split_textFuel, pyStrip] at hc
  | succ f ih =>
    intro text c h hc
    simp only [split_textFuel] at hc
    by_cases hlen : m < text.length
    · rw [if_pos hlen] at hc
      rcases List.mem_append.mp hc with h1 | h2
      · by_cases hc20 : 20 < (pyStrip (text.take (splitIndex text m + 1))).length
        · rw [if_pos hc20] at h1
          have hceq : c = pyStrip (text.take (splitIndex text m + 1)) := by simpa using h1
          subst hceq
          have hs := pyStrip_length_le (text.take (splitIndex text m + 1))
          have ht : (text.take (splitIndex text m + 1)).length ≤ splitIndex text m + 1 := by
            rw [List.length_take]; exact min_le_left _ _
          have hsi := splitIndex_le text m
          omega
        · rw [if_neg hc20] at h1
          simp at h1
      · exact ih _ _ (by rw [List.length_drop]; omega) h2
    · rw [if_neg hlen] at hc
      by_cases hc20 : 20 < (pyStrip text).length
      · rw [if_pos hc20] at hc
        have hceq : c = pyStrip text := by simpa using hc
        subst hceq
        have hs := pyStrip_length_le text
        omega
      · rw [if_neg hc20] at hc
        simp at hc

theorem rfindDot_eq_none {s : List Char} (h : ∀ c ∈ s, c ≠ '.') : rfindDot s = none := by
  induction s with
  | nil => rfl
  | cons c rest ih =>
    have hr : rfindDot rest = none := ih (fun x hx => h x (List.mem_cons_of_mem c hx))
    simp [rfindDot, hr, h c (List.mem_cons_self c rest)]

theorem splitIndex_of_no_dot {text : List Char} {m : Nat} (h : ∀ c ∈ text, c ≠ '.') :
    splitIndex text m = m := by
  unfold splitIndex
  rw [rfindDot_eq_none (fun c hc => h c (List.take_subset m text hc))]

theorem ciMatchAt_length_le : ∀ {p s : List Char}, ciMatchAt p s = true → p.length ≤ s.length
  | [], _, _ => Nat.zero_le _
  | p :: ps, [], h => by simp [ciMatchAt] at h
  | p :: ps, c :: cs, h => by
    simp only [ciMatchAt, Bool.and_eq_true] at h
    simpa using Nat.succ_le_succ (ciMatchAt_length_le h.2)

theorem stripWatermarkGo_length_le : ∀ fuel s, (stripWatermarkGo fuel s).length ≤ s.length := by
  intro fuel
  induction fuel with
  | zero => intro s; cases s <;> simp [stripWatermarkGo]
  | succ f ih =>
    intro s
    cases s with
    | nil => simp [stripWatermarkGo]
    | cons c rest =>
      simp only [stripWatermarkGo]
      by_cases hm : ciMatchAt watermark (c :: rest) = true
      · rw [if_pos hm]
        calc (stripWatermarkGo f ((c :: rest).drop watermark.length)).length
            ≤ ((c :: rest).drop watermark.length).length := ih _
          _ ≤ (c :: rest).length := by rw [List.length_drop]; omega
      · rw [if_neg hm]
        simpa using Nat.succ_le_succ (ih rest)

theorem stripWatermarkGo_removes :
    ∀ fuel s, s.length ≤ fuel → ciContains watermark s = true →
      (stripWatermarkGo fuel s).length + watermark.length ≤ s.length := by
  intro fuel
  induction fuel with
  | zero =>
    intro s h hc
    have hs : s = [] := List.length_eq_zero.mp (Nat.le_zero.mp h)
    subst hs
    have hfalse : ciContains watermark [] = false := by decide
    simp [hfalse] at hc
  | succ f ih =>
    intro s h hc
    cases s with
    | nil =>
      have hfalse : ciContains watermark [] = false := by decide
      simp [hfalse] at hc
    | cons c rest =>
      simp only [stripWatermarkGo]
      by_cases hm : ciMatchAt watermark (c :: rest) = true
      · rw [if_pos hm]
        have h16 : watermark.length ≤ (c :: rest).length := ciMatchAt_length_le hm
        have hlen := stripWatermarkGo_length_le f ((c :: rest).drop watermark.length)
        rw [List.length_drop] at hlen
        omega
      · rw [if_neg hm]
        have hc' : ciContains watermark rest = true := by
          simp only [ciContains, Bool.or_eq_true] at hc
          rcases hc with h1 | h2
          · exact absurd h1 hm
          · exact h2
        have hrec := ih rest (by simp at h; omega) hc'
        simp only [List.length_cons]
        omega

theorem processItems_spec {α : Type} (call : Nat → α → Except String (List Int)) (d : α) :
    ∀ (cs : List α) (i0 : Nat),
      processItems call i0 cs
        = ((List.range cs.length).filterMap (fun k => (call (i0 + k) (cs.getD k d)).toOption),
           (List.range cs.length).filterMap (fun k =>
             match call (i0 + k) (cs.getD k d) with
             | Except.error e => some (i0 + k, e)
             | Except.ok _ => none)) := by
  intro cs
  induction cs with
  | nil => intro i0; simp [processItems]
  | cons c cs ih =>
    intro i0
    have hidx : ∀ k : Nat, i0 + 1 + k = i0 + (k + 1) := by omega
    simp only [processItems, ih (i0 + 1), List.length_cons, List.range_succ_eq_map,
      List.filterMap_cons, List.filterMap_map, Function.comp_def, Nat.succ_eq_add_one,
      List.getD_cons_zero, List.getD_cons_succ, Nat.add_zero, hidx]
    cases hcall : call i0 c with
    | ok w => simp [Except.toOption, hcall]
    | error e => simp [Except.toOption, hcall]

theorem filterMap_ite_none {β γ : Type} (p : β → Prop) [DecidablePred p] (g : β → γ) :
    ∀ l : List β,
      (l.filterMap fun b => if p b then none else some (g b))
        = (l.filter fun b => decide ¬ p b).map g := by
  intro l
  induction l with
  | nil => rfl
  | cons b l ih =>
    by_cases hb : p b
    · simp [List.filterMap_cons, List.filter_cons, hb, ih]
    · simp [List.filterMap_cons, List.filter_cons, hb, ih]

theorem range_filterMap_ite_single {γ : Type} :
    ∀ (K j : Nat) (x : γ), j < K →
      ((List.range K).filterMap fun k => if k = j then some x else none) = [x] := by
  intro K
  induction K with
  | zero => intro j x h; omega
  | succ K ih =>
    intro j x h
    rw [List.range_succ, List.filterMap_append]
    by_cases hj : j < K
    · rw [ih j x hj]
      have hK : ([K].filterMap fun k => if k = j then some x else none) = [] := by
        have : K ≠ j := by omega
        simp [List.filterMap_cons, this]
      rw [hK]
      simp
    · have hjK : j = K := by omega
      subst hjK
      have h1 : ((List.range j).filterMap fun k => if k = j then some x else none) = [] := by
        rw [List.filterMap_eq_nil_iff]
        intro a ha
        have : a < j := List.mem_range.mp ha
        have : a ≠ j := by omega
        simp [this]
      rw [h1]
      simp [List.filterMap_cons]

theorem windowsGo_length {c : Nat} (hc : 0 < c) :
    ∀ fuel audio, audio.length ≤ fuel →
      (windowsGo c fuel audio).length = (audio.length + c - 1) / c := by
  intro fuel
  induction fuel with
  | zero =>
    intro audio h
    have ha : audio = [] := List.length_eq_zero.mp (Nat.le_zero.mp h)
    subst ha
    simp only [windowsGo, List.length_nil]
    rw [Nat.div_eq_of_lt (by omega)]
  | succ f ih =>
    intro audio h
    cases audio with
    | nil =>
      simp only [windowsGo, List.length_nil]
      rw [Nat.div_eq_of_lt (by omega)]
    | cons a rest =>
      simp only [windowsGo, List.length_cons]
      rw [ih _ (by rw [List.length_drop]; omega), List.length_drop, List.length_cons]
      by_cases hn : rest.length + 1 ≤ c
      · rw [Nat.div_eq_of_lt (by omega)]
        have he : rest.length + 1 + c - 1 = (rest.length + 1 - 1) + c := by omega
        rw [he, Nat.add_div_right _ hc, Nat.div_eq_of_lt (by omega)]
      · have h1 : rest.length + 1 - c + c - 1 = (rest.length + 1 - c - 1) + c := by omega
        have h2 : rest.length + 1 + c - 1 = (rest.length + 1 - 1) + c := by omega
        rw [h1, h2, Nat.add_div_right _ hc, Nat.add_div_right _ hc]
        have h3 : rest.length + 1 - 1 = (rest.length + 1 - c - 1) + c := by omega
        rw [h3, Nat.add_div_right _ hc]

theorem windowsGo_getD {c : Nat} (hc : 0 < c) :
    ∀ fuel audio k, audio.length ≤ fuel →
      (windowsGo c fuel audio).getD k [] = (audio.drop (k * c)).take c := by
  intro fuel
  induction fuel with
  | zero =>
    intro audio k h
    have ha : audio = [] := List.length_eq_zero.mp (Nat.le_zero.mp h)
    subst ha
    simp [windowsGo]
  | succ f ih =>
    intro audio k h
    cases audio with
    | nil => simp [windowsGo]
    | cons a rest =>
      cases k with
      | zero => simp [windowsGo]
      | succ k =>
        simp only [windowsGo, List.getD_cons_succ]
        rw [ih _ k (by rw [List.length_drop]; omega), List.drop_drop]
        have hmul : (k + 1) * c = c + k * c := by ring
        rw [hmul]

/-- C1 (counterexample): for `N = 21` and the 22-character input `"a" * 22`
(no period, no whitespace), `split_text` produces a single chunk of length 22,
which exceeds `N`: when no period occurs in the window the code cuts at
`text[:max_chars + 1]`, one character past the stated bound. -/
theorem C1_counterexample :
    1 ≤ 21 ∧ ∃ c ∈ split_text (List.replicate 22 'a') 21, ¬ c.length ≤ 21 := by
  decide

/-- C1 (amended): for every input string and every `N ≥ 1`, every chunk
returned by `split_text text N` has length at most `N + 1` (the cut keeps the
character at index `split_index`, so a period-free window yields a chunk of
`N + 1` characters; a chunk ending at a period within the window is at most
`N` characters). -/
theorem C1_chunk_length_le (text : List Char) (N : Nat) (c : List Char)
    (_hN : 1 ≤ N) (hc : c ∈ split_text text N) : c.length ≤ N + 1 :=
  length_le_of_mem_split_textFuel N text.length text c (Nat.le_refl _) hc

/-- Witness for C1 (amended) at `text = "a" * 22`, `N = 21`. -/
theorem C1_chunk_length_le_witness : (List.replicate 22 'a').length ≤ 21 + 1 :=
  C1_chunk_length_le (List.replicate 22 'a') 21 (List.replicate 22 'a') (by decide) (by decide)

/-- C2 (counterexample): for the period-free input `"a" * 62` and `N = 30`,
the raw pieces (and the chunks) are two blocks of 31 = `N + 1` characters,
not blocks of exactly `N` characters as claimed. -/
theorem C2_counterexample :
    (∀ c ∈ List.replicate 62 'a', c ≠ '.') ∧ 30 < (List.replicate 62 'a').length ∧
      split_text (List.replicate 62 'a') 30 = [List.replicate 31 'a', List.replicate 31 'a'] ∧
      splitPieces (List.replicate 62 'a') 30
        = [List.replicate 31 'a', List.replicate 31 'a', []] ∧
      List.replicate 31 'a' ≠ List.replicate 30 'a' := by
  decide

/-- C2 (amended): on input containing no `'.'` and of length greater than `N`,
the loop cuts at exactly `(N + 1)`-character boundaries: the first raw piece
(before trimming) is the next `N + 1` characters of the remaining text, and
the loop continues on the text after them. -/
theorem C2_cut_at_succ (text : List Char) (N : Nat)
    (hnd : ∀ c ∈ text, c ≠ '.') (hlen : N < text.length) :
    splitPieces text N = text.take (N + 1) :: splitPieces (text.drop (N + 1)) N := by
  have hsi : splitIndex text N = N := splitIndex_of_no_dot hnd
  obtain ⟨f, hf⟩ : ∃ f, text.length = f + 1 := ⟨text.length - 1, by omega⟩
  unfold splitPieces
  rw [hf]
  simp only [splitPiecesFuel]
  rw [if_pos hlen, hsi]
  congr 1
  exact splitPiecesFuel_congr N f (text.drop (N + 1)).length (text.drop (N + 1))
    (by rw [List.length_drop]; omega) (Nat.le_refl _)

/-- Witness for C2 (amended) at `text = "a" * 62`, `N = 30`. -/
theorem C2_cut_at_succ_witness :
    splitPieces (List.replicate 62 'a') 30
      = (List.replicate 62 'a').take 31 :: splitPieces ((List.replicate 62 'a').drop 31) 30 :=
  C2_cut_at_succ (List.replicate 62 'a') 30 (by decide) (by decide)

/-- C3: the raw pieces cut by `split_text text N` concatenate back to the
input text (so the chunks appear in original text order), and the returned
chunks are exactly the stripped pieces whose trimmed length exceeds 20
characters, in that order. -/
theorem C3_order_and_reconstruction (text : List Char) (N : Nat) (_hN : 1 ≤ N) :
    (splitPieces text N).flatten = text ∧
      split_text text N
        = ((splitPieces text N).map pyStrip).filter (fun c => decide (20 < c.length)) :=
  ⟨splitPiecesFuel_flatten N text.length text (Nat.le_refl _),
   split_textFuel_eq_filter N text.length text (Nat.le_refl _)⟩

/-- Witness for C3 at a two-sentence input and `N = 30`. -/
theorem C3_order_and_reconstruction_witness :
    (splitPieces ("This is the first sentence here. And then a second sentence".toList) 30).flatten
        = "This is the first sentence here. And then a second sentence".toList ∧
      split_text ("This is the first sentence here. And then a second sentence".toList) 30
        = ((splitPieces ("This is the first sentence here. And then a second sentence".toList)
              30).map pyStrip).filter (fun c => decide (20 < c.length)) :=
  C3_order_and_reconstruction ("This is the first sentence here. And then a second sentence".toList)
    30 (by decide)

/-- C7 (counterexample): the input `"Scan tScan to Downloado Download"`
contains the watermark phrase, yet the cleaned extraction output (equal to
`"Scan to Download"`) still contains a case-insensitive occurrence of it:
deleting the inner occurrence splices the surrounding text into a new
occurrence, and `re.sub` does not rescan. -/
theorem C7_counterexample :
    ciContains watermark ("Scan tScan to Downloado Download".toList) = true ∧
      ciContains watermark (cleanText ("Scan tScan to Downloado Download".toList)) = true ∧
      ciContains watermark
        (extract_text_from_pdf ["Scan tScan to Downloado Download".toList]) = true := by
  decide

/-- C7 (amended): the watermark pass removes case-insensitive occurrences in a
single left-to-right non-overlapping scan: whenever the text contains the
phrase, at least one occurrence is deleted (the output is shorter by at least
the phrase length), but a removal may splice surrounding characters into a new
occurrence that survives. -/
theorem C7_one_pass_removal (t : List Char) (h : ciContains watermark t = true) :
    (stripWatermark t).length + watermark.length ≤ t.length :=
  stripWatermarkGo_removes t.length t (Nat.le_refl _) h

/-- Witness for C7 (amended) at `t = watermark` itself. -/
theorem C7_one_pass_removal_witness :
    (stripWatermark watermark).length + watermark.length ≤ watermark.length :=
  C7_one_pass_removal watermark (by decide)

/-- C8: the `while` loop of `split_text` terminates for every input and every
`max_chars ≥ 0`: whenever the loop guard `len(text) > max_chars` holds, the
cut index satisfies `split_index + 1 ≥ 1`, so the remainder
`text[split_index + 1:]` is strictly shorter than `text`; consequently fuel
`text.length` is enough and any larger fuel computes the same result. -/
theorem C8_terminating (text : List Char) (m : Nat) :
    (m < text.length → (text.drop (splitIndex text m + 1)).length < text.length) ∧
      (∀ fuel, text.length ≤ fuel → split_textFuel m fuel text = split_text text m) := by
  constructor
  · intro h
    rw [List.length_drop]
    omega
  · intro fuel hf
    exact split_textFuel_congr m fuel text.length text hf (Nat.le_refl _)

/-- Witness for C8 at `text = "a" * 40`, `max_chars = 25`, fuel 100. -/
theorem C8_terminating_witness :
    ((List.replicate 40 'a').drop (splitIndex (List.replicate 40 'a') 25 + 1)).length
        < (List.replicate 40 'a').length ∧
      split_textFuel 25 100 (List.replicate 40 'a') = split_text (List.replicate 40 'a') 25 :=
  ⟨(C8_terminating (List.replicate 40 'a') 25).1 (by decide),
   (C8_terminating (List.replicate 40 'a') 25).2 100 (by decide)⟩


/-- C4: when one chunk's synthesis call fails (with error `e` at index `j`)
and every other chunk succeeds, `generate_book_tts` warns once, naming the
chunk index and the error, and the exported waveform (also returned encoded)
is the concatenation of the succeeding chunks' waveforms in original chunk
order — hence its duration is the sum of their durations. -/
theorem C4_failed_chunk_skipped (speakers : List String) (sp : String)
    (synth : String → Nat → List Char → Except String (List Int))
    (text : List Char) (j : Nat) (w : Nat → List Int) (e : String)
    (hsp : speakers.head? = some sp)
    (hj : j < (split_text text 1500).length)
    (hok : ∀ k, k < (split_text text 1500).length → k ≠ j →
      synth sp k ((split_text text 1500).getD k []) = Except.ok (w k))
    (herr : synth sp j ((split_text text 1500).getD j []) = Except.error e) :
    generate_book_tts speakers synth text
        = Except.ok
            ⟨(((List.range (split_text text 1500).length).filter
                  fun k => decide (¬ k = j)).map w).flatten,
              (((List.range (split_text text 1500).length).filter
                  fun k => decide (¬ k = j)).map w).flatten,
              [(j, e)]⟩ ∧
      (((List.range (split_text text 1500).length).filter
            fun k => decide (¬ k = j)).map w).flatten.length
        = (((List.range (split_text text 1500).length).filter
              fun k => decide (¬ k = j)).map fun k => (w k).length).sum := by
  have hA : (List.range (split_text text 1500).length).filterMap
      (fun k => (synth sp k ((split_text text 1500).getD k [])).toOption)
      = ((List.range (split_text text 1500).length).filter fun k => decide (¬ k = j)).map w := by
    have hfg : ∀ k ∈ List.range (split_text text 1500).length,
        (synth sp k ((split_text text 1500).getD k [])).toOption
          = if k = j then none else some (w k) := by
      intro k hk
      by_cases hkj : k = j
      · subst hkj
        rw [herr]
        simp [Except.toOption]
      · rw [hok k (List.mem_range.mp hk) hkj]
        simp [Except.toOption, hkj]
    rw [List.filterMap_congr hfg, filterMap_ite_none (fun k => k = j) w]
  have hB : (List.range (split_text text 1500).length).filterMap
      (fun k => match synth sp k ((split_text text 1500).getD k []) with
        | Except.error e' => some (k, e')
        | Except.ok _ => none)
      = [(j, e)] := by
    have hfg : ∀ k ∈ List.range (split_text text 1500).length,
        (match synth sp k ((split_text text 1500).getD k []) with
          | Except.error e' => some (k, e')
          | Except.ok _ => none)
          = if k = j then some ((j, e) : Nat × String) else none := by
      intro k hk
      by_cases hkj : k = j
      · subst hkj
        rw [herr]
        simp
      · rw [hok k (List.mem_range.mp hk) hkj]
        simp [hkj]
    rw [List.filterMap_congr hfg, range_filterMap_ite_single _ j ((j, e) : Nat × String) hj]
  constructor
  · simp only [generate_book_tts, hsp]
    rw [processItems_spec (synth sp) [] (split_text text 1500) 0]
    simp only [Nat.zero_add]
    rw [hA, hB]
  · rw [List.length_flatten, List.map_map]
    rfl

/-- Witness for C4 at a one-chunk book text whose chunk 0 fails with
`"boom"`. -/
theorem C4_failed_chunk_skipped_witness :
    generate_book_tts ["p225"] sampleSynth sampleBookText
        = Except.ok
            ⟨(((List.range (split_text sampleBookText 1500).length).filter
                  fun k => decide (¬ k = 0)).map (fun _ => ([7] : List Int))).flatten,
              (((List.range (split_text sampleBookText 1500).length).filter
                  fun k => decide (¬ k = 0)).map (fun _ => ([7] : List Int))).flatten,
              [(0, "boom")]⟩ ∧
      (((List.range (split_text sampleBookText 1500).length).filter
            fun k => decide (¬ k = 0)).map (fun _ => ([7] : List Int))).flatten.length
        = (((List.range (split_text sampleBookText 1500).length).filter
              fun k => decide (¬ k = 0)).map fun k => ((fun _ => ([7] : List Int)) k).length).sum :=
  C4_failed_chunk_skipped ["p225"] "p225" sampleSynth sampleBookText 0
    (fun _ => ([7] : List Int)) "boom" (by decide) (by decide) (by decide) (by decide)

/-- C9: when every chunk's synthesis call fails (or there are no chunks at
all), `generate_book_tts` still returns normally: the waveform exported to
the output file is the empty waveform, and the returned in-memory encoded
copy is the same empty waveform. -/
theorem C9_all_chunks_failed (speakers : List String) (sp : String)
    (synth : String → Nat → List Char → Except String (List Int)) (text : List Char)
    (hsp : speakers.head? = some sp)
    (hfail : ∀ k, k < (split_text text 1500).length →
      (synth sp k ((split_text text 1500).getD k [])).toOption = none) :
    (generate_book_tts speakers synth text).toOption.map BookTTS.exported = some [] ∧
      (generate_book_tts speakers synth text).toOption.map BookTTS.returned = some [] := by
  have hnil : (List.range (split_text text 1500).length).filterMap
      (fun k => (synth sp k ((split_text text 1500).getD k [])).toOption) = [] :=
    List.filterMap_eq_nil_iff.mpr (fun k hk => hfail k (List.mem_range.mp hk))
  have hgen : generate_book_tts speakers synth text
      = Except.ok
          ⟨[], [],
            (List.range (split_text text 1500).length).filterMap
              (fun k => match synth sp k ((split_text text 1500).getD k []) with
                | Except.error e' => some (k, e')
                | Except.ok _ => none)⟩ := by
    simp only [generate_book_tts, hsp]
    rw [processItems_spec (synth sp) [] (split_text text 1500) 0]
    simp only [Nat.zero_add]
    rw [hnil]
    rfl
  rw [hgen]
  exact ⟨rfl, rfl⟩

/-- Witness for C9 at a one-chunk text with an always-failing synthesizer. -/
theorem C9_all_chunks_failed_witness :
    (generate_book_tts ["p225"] failSynth
          ("This sentence is definitely long enough.".toList)).toOption.map BookTTS.exported
        = some [] ∧
      (generate_book_tts ["p225"] failSynth
          ("This sentence is definitely long enough.".toList)).toOption.map BookTTS.returned
        = some [] :=
  C9_all_chunks_failed ["p225"] "p225" failSynth
    ("This sentence is definitely long enough.".toList) (by decide) (by decide)

/-- C10: `generate_book_tts` indexes `tts.speakers[0]` before any chunk is
processed: with at least one available voice identity the operation returns
normally (`isOk`), and with an empty speaker list it fails with an
`IndexError` before producing any output, whatever the synthesizer and text. -/
theorem C10_first_speaker (speakers : List String)
    (synth : String → Nat → List Char → Except String (List Int)) (text : List Char) :
    (generate_book_tts speakers synth text).isOk = !speakers.isEmpty ∧
      generate_book_tts [] synth text = Except.error "IndexError: list index out of range" := by
  constructor
  · cases speakers with
    | nil => rfl
    | cons s rest => rfl
  · rfl

/-- C5: `convert_to_user_voice` cuts the source waveform of duration `D` ms
into `⌈D / chunkMs⌉` windows, window `k` being the wall-clock slice
`audio[k * chunkMs : (k + 1) * chunkMs]`, and (with the conversion model
loaded) returns the concatenation of the successfully converted windows in
original chronological order, with one warning per failed window. -/
theorem C5_windows_and_order (load : String → Except String String)
    (conv : String → Nat → List Int → Except String (List Int))
    (audio : List Int) (chunkMs : Nat) (m : String) (k : Nat)
    (hc : 0 < chunkMs) (hm : loadVC load = Except.ok m) :
    (windows chunkMs audio).length = (audio.length + chunkMs - 1) / chunkMs ∧
      (windows chunkMs audio).getD k [] = (audio.drop (k * chunkMs)).take chunkMs ∧
      convert_to_user_voice load conv audio chunkMs
        = Except.ok
            ⟨((List.range (windows chunkMs audio).length).filterMap
                (fun i => (conv m i ((windows chunkMs audio).getD i [])).toOption)).flatten,
              (List.range (windows chunkMs audio).length).filterMap (fun i =>
                match conv m i ((windows chunkMs audio).getD i []) with
                | Except.error e => some (i, e)
                | Except.ok _ => none)⟩ := by
  refine ⟨windowsGo_length hc _ _ (Nat.le_refl _),
    windowsGo_getD hc _ _ k (Nat.le_refl _), ?_⟩
  simp only [convert_to_user_voice, hm]
  rw [processItems_spec (conv m) [] (windows chunkMs audio) 0]
  simp only [Nat.zero_add]

/-- Witness for C5 at a 1 ms waveform and the default 15000 ms window. -/
theorem C5_windows_and_order_witness :
    (windows 15000 [5]).length = (([5] : List Int).length + 15000 - 1) / 15000 ∧
      (windows 15000 [5]).getD 0 [] = (([5] : List Int).drop (0 * 15000)).take 15000 ∧
      convert_to_user_voice okLoad idConv [5] 15000
        = Except.ok
            ⟨((List.range (windows 15000 [5]).length).filterMap
                (fun i => (idConv "model" i ((windows 15000 [5]).getD i [])).toOption)).flatten,
              (List.range (windows 15000 [5]).length).filterMap (fun i =>
                match idConv "model" i ((windows 15000 [5]).getD i []) with
                | Except.error e => some (i, e)
                | Except.ok _ => none)⟩ :=
  C5_windows_and_order okLoad idConv [5] 15000 "model" 0 (by decide) rfl

/-- C6: when loading the primary `freevc24` variant raises, exactly one
fallback is attempted, namely loading the secondary `freevc` variant, whose
outcome is final; when that also raises, the error propagates uncaught out of
`convert_to_user_voice`. -/
theorem C6_single_fallback (load : String → Except String String)
    (conv : String → Nat → List Int → Except String (List Int))
    (audio : List Int) (chunkMs : Nat) (e1 e2 : String)
    (h1 : load freevc24Name = Except.error e1)
    (h2 : load freevcName = Except.error e2) :
    loadVC load = load freevcName ∧
      convert_to_user_voice load conv audio chunkMs = Except.error e2 := by
  have hl : loadVC load = load freevcName := by
    unfold loadVC
    rw [h1]
  refine ⟨hl, ?_⟩
  unfold convert_to_user_voice
  rw [hl, h2]

/-- Witness for C6 with a loader that fails on both variants. -/
theorem C6_single_fallback_witness :
    loadVC badLoad = badLoad freevcName ∧
      convert_to_user_voice badLoad badConv [] 15000 = Except.error "no model" :=
  C6_single_fallback badLoad badConv [] 15000 "no model" "no model" rfl rfl
